import Mathlib

/-
Verification development for the unix-network-demo repository (server in
network_shared.h plus client.c). The C data structures and functions that
the specification talks about are embedded below as executable Lean
definitions; machine integers are modelled as Nat (the events field of a
pollfd is a 16-bit mask, all values handled stay far below 2^16), socket
descriptors as Int, and the byte stream of a TCP connection as a list of
byte values together with an explicit chunking schedule that says how many
bytes each recv or send call transfers.
-/

/- ---- Data model ---- -/

/-- Model of struct pollfd as used by the server: a socket descriptor, the
requested-events mask (which the server abuses to store the pulse credit
counter in bits 3 and 4, the POLLERR and POLLHUP positions), and the
received-events mask. -/
structure Pollfd where
  fd : Int
  events : Nat
  revents : Nat
deriving DecidableEq, Inhabited

/-- POLLIN bit on Linux. -/
def POLLIN : Nat := 1

/-- POLLHUP bit on Linux. -/
def POLLHUP : Nat := 16

/-- The reserved pulse (heartbeat) byte, value 3, from network_shared.h. -/
def network_global_pulse_message : Nat := 3

/-- The poll-requests list together with its allocated element count.
Only the first requests_count slots of the C array are ever read, so the
entries list holds exactly the live slots and alloc is the allocation
size in elements. -/
structure Registry where
  entries : List Pollfd
  alloc : Nat
deriving DecidableEq, Inhabited

/- ---- Registry operations (add_pollfds_list / remove_pollfds_list) ---- -/

/-- Model of add_pollfds_list. growOk models whether the realloc call
succeeds when an expansion is needed. Return value: the first component is
the new live-entries list (none models the NULL return on realloc
failure, in which case the caller keeps its old list), the second is the
value of the poll_sockfds_alloc_count out-parameter after the call. Note
that the C source doubles the count inside the realloc argument, so the
count is doubled even when realloc fails. -/
def add_pollfds_list (entries : List Pollfd) (alloc : Nat) (new_client_sockfd : Int)
    (growOk : Bool) : Option (List Pollfd) × Nat :=
  if entries.length ≥ alloc then
    let alloc2 := alloc * 2
    if growOk then
      (some (entries ++ [⟨new_client_sockfd, POLLIN ||| (3 <<< 3), 0⟩]), alloc2)
    else (none, alloc2)
  else
    (some (entries ++ [⟨new_client_sockfd, POLLIN ||| (3 <<< 3), 0⟩]), alloc)

/-- Model of remove_pollfds_list, removing the entry at index i. shrinkOk
models whether the realloc call succeeds when a shrink is attempted. The C
source copies only the fd field of the last live entry into the removed
slot (events and revents of the removed slot are left in place), then
decrements the request count; if the shrink realloc returns NULL the C
assignment stores NULL into poll_sockfds and returns it, which the first
component being none models, and the alloc out-parameter has already been
set to the halved value. -/
def remove_pollfds_list (entries : List Pollfd) (alloc : Nat) (i : Nat)
    (shrinkOk : Bool) : Option (List Pollfd) × Nat :=
  let newCount := entries.length - 1
  let lastFd := (entries.getLastD default).fd
  let swapped :=
    match entries.get? i with
    | some c => (entries.set i { c with fd := lastFd }).dropLast
    | none => entries.dropLast
  let threshold := alloc / 2
  if newCount < threshold then
    if shrinkOk then (some swapped, threshold) else (none, threshold)
  else (some swapped, alloc)

/- ---- Client request handling (handle_client_request) ---- -/

/-- The three possible outcomes of the recieve_bytes call made by
handle_client_request: a zero return (peer disconnected), a -1 return
(receive error), or a positive byte count. -/
inductive RecvOutcome where
  | disconnected
  | err
  | ok (total : Nat)
deriving DecidableEq

/-- Result of one handle_client_request call: the new registry contents
and alloc count, the message surfaced to the user via printf (peer fd and
the buffer contents up to the first NUL byte), if any, and whether the
client was removed from the registry. -/
structure HandleResult where
  entries : List Pollfd
  alloc : Nat
  surfaced : Option (Int × List Nat)
  removed : Bool
deriving DecidableEq

/-- Model of handle_client_request for the client at index i. buf is the
contents of the shared client_response_buffer after the recieve_bytes
call (on a -1 outcome the first recv already failed, so the buffer still
holds whatever a previous message left there). The source removes the
client on a POLLHUP received event or a zero-byte read; otherwise it ORs
the two credit bits back to full, clears revents, and prints the buffer
as a C string unless its first byte is the pulse byte. -/
def handle_client_request (entries : List Pollfd) (alloc : Nat) (i : Nat)
    (buf : List Nat) (outcome : RecvOutcome) (shrinkOk : Bool) : HandleResult :=
  match entries.get? i with
  | none => ⟨entries, alloc, none, false⟩
  | some c =>
    let del :=
      match remove_pollfds_list entries alloc i shrinkOk with
      | (some e2, a2) => HandleResult.mk e2 a2 none true
      | (none, a2) => HandleResult.mk [] a2 none true
    if c.revents &&& POLLHUP ≠ 0 then del
    else if outcome = RecvOutcome.disconnected then del
    else
      let c2 : Pollfd := { c with events := c.events ||| (3 <<< 3), revents := 0 }
      { entries := entries.set i c2
        alloc := alloc
        surfaced :=
          if buf.headD 0 ≠ network_global_pulse_message then
            some (c.fd, buf.takeWhile (fun b => b ≠ 0))
          else none
        removed := false }

/- ---- Heartbeat scan (check_clients_pulse) ---- -/

/-- Model of the check_clients_pulse scan starting at index i (the server
calls it over indices 1 .. count-1; the pointer iteration with the
decrement-after-removal trick is exactly a scan that stays at the same
index after a removal). Entries whose revents contain POLLIN are skipped;
otherwise the two credit bits are read, and if the decremented credit is
not positive the entry is removed via remove_pollfds_list (realloc
assumed to succeed), else the credit bits are rewritten with the
decremented value (65511 is the 16-bit complement of 3 <<< 3) and a probe
byte is sent, which has no effect on the registry state. -/
def check_clients_pulse (entries : List Pollfd) (alloc : Nat) (i : Nat) :
    List Pollfd × Nat :=
  if h : i < entries.length then
    let c := entries.getD i default
    if c.revents &&& POLLIN ≠ 0 then check_clients_pulse entries alloc (i + 1)
    else if (c.events >>> 3) &&& 3 ≤ 1 then
      match hrem : remove_pollfds_list entries alloc i true with
      | (some e2, a2) => check_clients_pulse e2 a2 i
      | (none, a2) => ([], a2)
    else
      let pulse2 := ((c.events >>> 3) &&& 3) - 1
      let c2 : Pollfd := { c with events := (c.events &&& 65511) ||| (pulse2 <<< 3) }
      check_clients_pulse (entries.set i c2) alloc (i + 1)
  else (entries, alloc)
termination_by entries.length - i
decreasing_by
  · omega
  · have hlen : e2.length = entries.length - 1 := by
      simp only [remove_pollfds_list] at hrem
      split at hrem <;> split at hrem <;>
        simp only [Prod.mk.injEq, Option.some.injEq, reduceCtorEq, false_and] at hrem <;>
        (try split at hrem) <;>
        rw [← hrem.1] <;>
        simp [List.length_dropLast, List.length_set]
    omega
  · simp only [List.length_set]; omega

/- ---- Framing codec (recieve_bytes / send_bytes from network_shared.h) ---- -/

/-- Overwrite the bytes of buf starting at position pos with chunk, the
effect of one recv call writing into target_buffer + total. -/
def writeBytes (buf : List Nat) (pos : Nat) (chunk : List Nat) : List Nat :=
  buf.take pos ++ chunk ++ buf.drop (pos + chunk.length)

/-- Model of recieve_bytes. stream is the sequence of bytes available on
the socket and sched is the chunking schedule: one recv call transfers
min (sched.headD 0 + 1, requested size, bytes left) bytes, so every
nonempty read makes progress as recv does on a readable socket, and a
read on an exhausted stream returns 0, the disconnect outcome. The result
is the final buffer together with the C return value (0 for disconnect;
receive errors are not injected here, a caller models them through
RecvOutcome). After each chunk the source checks only the last byte
written: NUL or the pulse byte stop without modification, a newline is
replaced in place by NUL, and filling max bytes forces a NUL over the
last byte. -/
def recieve_bytes (max_operation_bytes : Nat) (target_buffer : List Nat)
    (total : Nat) (stream : List Nat) (sched : List Nat) : List Nat × Nat :=
  let k := min (min (sched.headD 0 + 1) (max_operation_bytes - total)) stream.length
  if hk : k = 0 then (target_buffer, 0)
  else
    let buf2 := writeBytes target_buffer total (stream.take k)
    let total2 := total + k
    if total2 ≥ max_operation_bytes then (buf2.set (total2 - 1) 0, total2)
    else if buf2.getD (total2 - 1) 0 = 0 ∨
            buf2.getD (total2 - 1) 0 = network_global_pulse_message then
      (buf2, total2)
    else if buf2.getD (total2 - 1) 0 = 10 then (buf2.set (total2 - 1) 0, total2)
    else recieve_bytes max_operation_bytes buf2 total2 (stream.drop k) sched.tail
termination_by stream.length
decreasing_by simp only [List.length_drop]; omega

/-- Model of send_bytes. sched is the chunking schedule for how many
bytes each send call accepts (always at least one, so a send on a
nonempty request makes progress; a zero-byte request yields the error
return, none, exactly as the C code treats a result below 1). The result
is the transmitted byte stream paired with the total count. The source
stops once max bytes went out or once the last byte sent was NUL or a
newline, checked against the send buffer itself. -/
def send_bytes (max_operation_bytes : Nat) (target_buffer : List Nat)
    (sent : List Nat) (total : Nat) (sched : List Nat) : Option (List Nat × Nat) :=
  let k := min (sched.headD 0 + 1) (max_operation_bytes - total)
  if k = 0 then none
  else
    let total2 := total + k
    let sent2 := sent ++ (target_buffer.drop total).take k
    if total2 ≥ max_operation_bytes then some (sent2, total2)
    else if target_buffer.getD (total2 - 1) 0 = 0 ∨
            target_buffer.getD (total2 - 1) 0 = 10 then
      some (sent2, total2)
    else send_bytes max_operation_bytes target_buffer sent2 total2 sched.tail
termination_by max_operation_bytes - total
decreasing_by omega

/- ---- Server run state (server_state, signal_server_end) ---- -/

/-- Model of the signal_server_end SIGINT handler: the interrupt is
ignored outright when a command is mid-flight (state 2), otherwise the
state becomes 0 (inactive). -/
def signal_server_end (s : Nat) : Nat := if s = 2 then s else 0

/-- The events that change the server_state flag: a SIGINT delivery, the
interactive producer posting a command (only meaningful from the active
state 1), and the event loop finishing a posted command by writing state
1 back (the source writes server_state = 1 right after
handle_interaction_result). -/
inductive SrvEvent where
  | signal
  | post
  | complete
deriving DecidableEq

/-- One run-state transition of the server for a given event. -/
def srv_step (s : Nat) : SrvEvent → Nat
  | SrvEvent.signal => signal_server_end s
  | SrvEvent.post => if s = 1 then 2 else s
  | SrvEvent.complete => if s = 2 then 1 else s

/-- Run-state reached after a sequence of events. -/
def srv_run (s : Nat) (evs : List SrvEvent) : Nat := evs.foldl srv_step s

/- ---- Registry accept and evict sequences (for the registry invariants) ---- -/

/-- The initial poll-requests list built by begin_serving: the listening
socket at index 0 with events = POLLIN, four allocated slots. -/
def initRegistry (server_sockfd : Int) : Registry :=
  ⟨[⟨server_sockfd, POLLIN, 0⟩], 4⟩

/-- One registry operation of the event loop: accepting a new client
socket, or evicting the entry at index i (pulse eviction, kick, or
disconnect — the source only ever evicts through iterations that start
at poll_sockfds + 1, so indices below 1 never reach
remove_pollfds_list). -/
inductive RegOp where
  | accept (fd : Int)
  | evict (i : Nat)

/-- Apply one registry operation, with reallocs assumed to succeed.
Accepting is guarded by the operating-system contract that accept returns
a descriptor that is not currently open, modelled as skipping a
descriptor already present; evicting is guarded to the client indices
1 .. count-1, exactly the range the iterations of the source can pass to
remove_pollfds_list. -/
def applyOp (r : Registry) : RegOp → Registry
  | RegOp.accept fd =>
    if fd ∈ r.entries.map Pollfd.fd then r
    else
      match add_pollfds_list r.entries r.alloc fd true with
      | (some e2, a2) => ⟨e2, a2⟩
      | (none, a2) => ⟨r.entries, a2⟩
  | RegOp.evict i =>
    if 1 ≤ i ∧ i < r.entries.length then
      match remove_pollfds_list r.entries r.alloc i true with
      | (some e2, a2) => ⟨e2, a2⟩
      | (none, _) => r
    else r

/-- Apply a sequence of accept and evict operations. -/
def applyOps (r : Registry) (ops : List RegOp) : Registry := ops.foldl applyOp r

/- ---- Command mailbox interleaving model (begin_interaction / begin_serving) ---- -/

/-- Program counter of the interactive producer thread
(begin_interaction): blocked reading input, writing the shared command
fields, about to set server_state to 2, sleeping until the loop resets
the state, or exited. -/
inductive PPC where
  | idle
  | writing
  | ready
  | waiting
  | stopped
deriving DecidableEq

/-- Program counter of the event loop with respect to the mailbox: at the
top of an iteration, or inside handle_interaction_result consuming the
posted command. -/
inductive LPC where
  | top
  | consuming
deriving DecidableEq

/-- Joint state of the mailbox protocol: the server_state flag and the
two program counters. The command payload itself carries no protocol
information, so it is not part of the state; the safety property is about
who may touch it when. -/
structure Mailbox where
  st : Nat
  ppc : PPC
  lpc : LPC
deriving DecidableEq

/-- Initial mailbox state: server active, producer about to read input,
loop at the top of an iteration. -/
def mbInit : Mailbox := ⟨1, PPC.idle, LPC.top⟩

/-- Interleaved small-step transitions of the two threads plus SIGINT
delivery, from the source: the producer obtains an input line and starts
filling the shared fields, finishes writing, publishes by storing 2 into
server_state, and then sleeps while the flag reads 2, leaving the wait
either to state 1 (loop consumed, back to reading input) or to state 0
(server ended, thread exits); the loop enters handle_interaction_result
only after reading server_state equal to 2, and on finishing stores 1;
signal_server_end stores 0 unless the flag is 2. -/
inductive MbStep : Mailbox → Mailbox → Prop where
  | prodBegin (st : Nat) (l : LPC) : MbStep ⟨st, PPC.idle, l⟩ ⟨st, PPC.writing, l⟩
  | prodWriteEnd (st : Nat) (l : LPC) : MbStep ⟨st, PPC.writing, l⟩ ⟨st, PPC.ready, l⟩
  | prodPost (st : Nat) (l : LPC) : MbStep ⟨st, PPC.ready, l⟩ ⟨2, PPC.waiting, l⟩
  | prodSeeActive (l : LPC) : MbStep ⟨1, PPC.waiting, l⟩ ⟨1, PPC.idle, l⟩
  | prodSeeStop (l : LPC) : MbStep ⟨0, PPC.waiting, l⟩ ⟨0, PPC.stopped, l⟩
  | loopSee (p : PPC) : MbStep ⟨2, p, LPC.top⟩ ⟨2, p, LPC.consuming⟩
  | loopDone (st : Nat) (p : PPC) : MbStep ⟨st, p, LPC.consuming⟩ ⟨1, p, LPC.top⟩
  | sigint (s : Mailbox) : s.st ≠ 2 → MbStep s ⟨0, s.ppc, s.lpc⟩

/-- Reachability from the initial mailbox state. -/
inductive MbReach : Mailbox → Prop where
  | init : MbReach mbInit
  | step {s t : Mailbox} : MbReach s → MbStep s t → MbReach t


/- ---- Helper lemmas ---- -/

/-- ORing the full credit mask into an events word always leaves the two
credit bits reading 3, whatever the previous contents were: this is the
reset performed by handle_client_request. -/
theorem credits_or_full (x : Nat) : ((x ||| (3 <<< 3)) >>> 3) &&& 3 = 3 := by
  apply Nat.eq_of_testBit_eq
  intro i
  rw [Nat.testBit_and, Nat.testBit_shiftRight, Nat.testBit_or]
  match i with
  | 0 => rw [(by decide : Nat.testBit (3 <<< 3) (3 + 0) = true)]; simp
  | 1 => rw [(by decide : Nat.testBit (3 <<< 3) (3 + 1) = true)]; simp
  | i + 2 =>
    have h3 : Nat.testBit 3 (i + 2) = false := by
      apply Nat.testBit_eq_false_of_lt
      calc (3 : Nat) < 2 ^ 2 := by norm_num
        _ ≤ 2 ^ (i + 2) := Nat.pow_le_pow_right (by norm_num) (by omega)
    rw [h3, Bool.and_false]

/- ---- Claim C1 ---- -/

/-- Claim C1. The heartbeat part of the claim fails on the code: here the
registry holds the listening socket (fd 0), a client Y with fd 5 whose
credit bits hold 1 (events 9 = POLLIN + 1 in bits 3..4), and a client X
with fd 6 whose credits are at the maximum 3 (events 25 = POLLIN + 3 in
bits 3..4). Neither client has a readable event pending. A single
check_clients_pulse scan evicts Y, and because remove_pollfds_list moves
only the fd field, X is swapped into the slot still carrying the credit
bits Y left behind and is evicted in the same, very first probe cycle —
not at its 3rd — so eviction timing is not independent of intervening
evictions of other connections. The resulting registry holds only the
listening socket. -/
theorem claim1_fresh_client_evicted_first_cycle :
    check_clients_pulse [⟨0, 1, 0⟩, ⟨5, 9, 0⟩, ⟨6, 25, 0⟩] 4 1 = ([⟨0, 1, 0⟩], 2) := by
  simp [check_clients_pulse, remove_pollfds_list, POLLIN]

/- ---- Claim C2 ---- -/

/-- Claim C2 fails on the code. First conjunct: a full registry (4 live
entries, 4 allocated) with a failing growth realloc makes add return the
NULL signal while the alloc out-parameter has already been doubled to 8 —
the registry capacity is not left unchanged, and the stale doubled count
makes the next add skip reallocation and write past the real allocation.
Second conjunct: a remove that triggers a shrink whose realloc fails
returns NULL as the new list (losing the registry; callers treat NULL as
server shutdown) with the capacity already halved, instead of keeping the
existing storage and capacity. -/
theorem claim2_realloc_failure_mutates_state :
    add_pollfds_list [⟨0, 1, 0⟩, ⟨5, 25, 0⟩, ⟨6, 25, 0⟩, ⟨7, 25, 0⟩] 4 8 false = (none, 8) ∧
    remove_pollfds_list [⟨0, 1, 0⟩, ⟨5, 25, 0⟩] 4 1 false = (none, 2) := by decide

/- ---- Claim C4 ---- -/

/-- Claim C4: the floor part fails on the code. Starting from the initial
capacity 4 with the listening socket and one client, removing that client
leaves occupancy 1 below half the capacity, and the registry shrinks to
capacity 2 — below the floor of 4 that the dead initialisation of
poll_sockfds_threshold_count intends, because the threshold variable is
overwritten with alloc/2 before it is ever read. -/
theorem claim4_capacity_shrinks_below_floor :
    remove_pollfds_list [⟨0, 1, 0⟩, ⟨5, 25, 0⟩] 4 1 true = (some [⟨0, 1, 0⟩], 2) := by decide

/- ---- Claim C5 ---- -/

/-- Claim C5 fails on the code: removing client A (fd 5, credit bits 1)
from [listener, A, B] moves only the fd of the last live entry B (fd 6,
credit bits 3) into the removed slot, so the surviving entry for B now
carries the credit bits of the removed connection A (events 9, credits 1)
instead of its own events 25, credits 3 — the whole Connection is not
moved and the pendingPulseCredits of a connection other than the removed
one changes. -/
theorem claim5_swap_remove_moves_only_fd :
    remove_pollfds_list [⟨0, 1, 0⟩, ⟨5, 9, 0⟩, ⟨6, 25, 0⟩] 4 1 true =
      (some [⟨0, 1, 0⟩, ⟨6, 9, 0⟩], 4) := by decide

/- ---- Claim C6 ---- -/

/-- Claim C6 counterexample: the two-byte payload 3, 120 (a message
starting with the pulse byte but not equal to the lone acknowledgment
byte) arrives successfully, yet handle_client_request surfaces nothing,
because the source only compares the first byte of the buffer against the
pulse byte. The claim as stated requires every payload other than the
lone acknowledgment byte to be surfaced. -/
theorem claim6_counterexample :
    (handle_client_request [⟨0, 1, 0⟩, ⟨5, 25, 0⟩] 4 1 [3, 120, 0]
        (RecvOutcome.ok 3) true).surfaced = none ∧
    ([3, 120, 0] : List Nat) ≠ [network_global_pulse_message] := by decide

/-- Claim C6 as amended: on every successful read for a registered client
whose received events do not include POLLHUP, handle_client_request keeps
the client (removed = false), rewrites its entry with the credit bits
fully set and revents cleared — the credit counter reads the maximum 3
afterwards — and surfaces a message-received event if and only if the
first byte of the buffer differs from the pulse byte 3 (so a multi-byte
payload whose first byte is the pulse byte is also suppressed). -/
theorem claim6_surfaced_iff_first_byte (entries : List Pollfd) (alloc i total : Nat)
    (c : Pollfd) (buf : List Nat) (ok : Bool)
    (hc : entries.get? i = some c) (hhup : c.revents &&& POLLHUP = 0) :
    (handle_client_request entries alloc i buf (RecvOutcome.ok total) ok).removed = false ∧
    (handle_client_request entries alloc i buf (RecvOutcome.ok total) ok).entries =
      entries.set i { c with events := c.events ||| (3 <<< 3), revents := 0 } ∧
    ((c.events ||| (3 <<< 3)) >>> 3) &&& 3 = 3 ∧
    ((handle_client_request entries alloc i buf (RecvOutcome.ok total) ok).surfaced ≠ none ↔
      buf.headD 0 ≠ network_global_pulse_message) := by
  unfold handle_client_request
  rw [hc]
  simp only [hhup, ne_eq, not_true_eq_false, if_false, reduceCtorEq, if_true,
    not_false_eq_true]
  refine ⟨?_, ?_, credits_or_full c.events, ?_⟩
  · simp
  · simp
  · by_cases hb : buf.headD 0 = network_global_pulse_message <;> simp [hb]

/-- Witness for the amended claim C6 at a concrete input: registry
[listener, client fd 5 with credit bits 1], buffer holding the message
bytes 104, 105 and a NUL; the client is kept, its credits return to 3 and
the message is surfaced. -/
theorem claim6_surfaced_iff_first_byte_witness :
    ([⟨0, 1, 0⟩, ⟨5, 9, 0⟩] : List Pollfd).get? 1 = some ⟨5, 9, 0⟩ ∧
    (Pollfd.mk 5 9 0).revents &&& POLLHUP = 0 ∧
    ((handle_client_request [⟨0, 1, 0⟩, ⟨5, 9, 0⟩] 4 1 [104, 105, 0]
        (RecvOutcome.ok 3) true).removed = false ∧
      (handle_client_request [⟨0, 1, 0⟩, ⟨5, 9, 0⟩] 4 1 [104, 105, 0]
          (RecvOutcome.ok 3) true).entries =
        ([⟨0, 1, 0⟩, ⟨5, 9, 0⟩] : List Pollfd).set 1
          { Pollfd.mk 5 9 0 with events := 9 ||| (3 <<< 3), revents := 0 } ∧
      (((Pollfd.mk 5 9 0).events ||| (3 <<< 3)) >>> 3) &&& 3 = 3 ∧
      ((handle_client_request [⟨0, 1, 0⟩, ⟨5, 9, 0⟩] 4 1 [104, 105, 0]
          (RecvOutcome.ok 3) true).surfaced ≠ none ↔
        ([104, 105, 0] : List Nat).headD 0 ≠ network_global_pulse_message)) :=
  ⟨by decide, by decide,
    claim6_surfaced_iff_first_byte [⟨0, 1, 0⟩, ⟨5, 9, 0⟩] 4 1 3 ⟨5, 9, 0⟩
      [104, 105, 0] true (by decide) (by decide)⟩

/- ---- Claim C10 ---- -/

/-- Claim C10 confirmed: when recieve_bytes reports the transient error
outcome for a registered client with no POLLHUP event pending, the
handler keeps the client registered, ORs its credit bits back to the
maximum (the counter reads 3 afterwards), and still surfaces whatever the
shared response buffer currently holds — stale bytes from an earlier
message — unless its first byte is the pulse byte. -/
theorem claim10_error_read_counts_as_liveness (entries : List Pollfd)
    (alloc i : Nat) (c : Pollfd) (buf : List Nat) (ok : Bool)
    (hc : entries.get? i = some c) (hhup : c.revents &&& POLLHUP = 0) :
    (handle_client_request entries alloc i buf RecvOutcome.err ok).removed = false ∧
    (handle_client_request entries alloc i buf RecvOutcome.err ok).entries =
      entries.set i { c with events := c.events ||| (3 <<< 3), revents := 0 } ∧
    ((c.events ||| (3 <<< 3)) >>> 3) &&& 3 = 3 ∧
    (handle_client_request entries alloc i buf RecvOutcome.err ok).surfaced =
      (if buf.headD 0 ≠ network_global_pulse_message then
        some (c.fd, buf.takeWhile (fun b => b ≠ 0))
      else none) := by
  unfold handle_client_request
  rw [hc]
  simp only [hhup, ne_eq, not_true_eq_false, if_false, reduceCtorEq, if_true,
    not_false_eq_true]
  exact ⟨by simp, by simp, credits_or_full c.events, by simp⟩

/-- Witness for claim C10 at a concrete input: the client with fd 5 and
credit bits 1 suffers a receive error while the shared buffer still holds
the stale bytes 104, 105; the client is kept, the credits return to 3 and
the stale text is surfaced as a message from fd 5. -/
theorem claim10_error_read_witness :
    ([⟨0, 1, 0⟩, ⟨5, 9, 0⟩] : List Pollfd).get? 1 = some ⟨5, 9, 0⟩ ∧
    (Pollfd.mk 5 9 0).revents &&& POLLHUP = 0 ∧
    ((handle_client_request [⟨0, 1, 0⟩, ⟨5, 9, 0⟩] 4 1 [104, 105, 0]
        RecvOutcome.err true).removed = false ∧
      (handle_client_request [⟨0, 1, 0⟩, ⟨5, 9, 0⟩] 4 1 [104, 105, 0]
          RecvOutcome.err true).entries =
        ([⟨0, 1, 0⟩, ⟨5, 9, 0⟩] : List Pollfd).set 1
          { Pollfd.mk 5 9 0 with events := 9 ||| (3 <<< 3), revents := 0 } ∧
      (((Pollfd.mk 5 9 0).events ||| (3 <<< 3)) >>> 3) &&& 3 = 3 ∧
      (handle_client_request [⟨0, 1, 0⟩, ⟨5, 9, 0⟩] 4 1 [104, 105, 0]
          RecvOutcome.err true).surfaced =
        (if ([104, 105, 0] : List Nat).headD 0 ≠ network_global_pulse_message then
          some ((Pollfd.mk 5 9 0).fd, ([104, 105, 0] : List Nat).takeWhile (fun b => b ≠ 0))
        else none)) :=
  ⟨by decide, by decide,
    claim10_error_read_counts_as_liveness [⟨0, 1, 0⟩, ⟨5, 9, 0⟩] 4 1 ⟨5, 9, 0⟩
      [104, 105, 0] true (by decide) (by decide)⟩

/- ---- Claim C8 ---- -/

/-- Claim C8 counterexample: a termination signal delivered while the run
state is 2 (a command mid-flight) is discarded by signal_server_end, and
after the loop completes the command the state is 1 (active), not 0
(inactive): the shutdown is not deferred, it is lost, so the signal does
not always eventually drive the run state to inactive. -/
theorem claim8_counterexample :
    srv_run 2 [SrvEvent.signal, SrvEvent.complete] = 1 ∧ (1 : Nat) ≠ 0 := by decide

/-- Claim C8 as amended: a termination signal arriving while no command
is mid-flight sets the run state to 0 (inactive) at once; a signal
arriving while the state is 2 (command mid-flight) is ignored outright,
and once the loop completes the command the server is back in state 1
(active) — it does not shut down unless another signal arrives. -/
theorem claim8_signal_discarded_during_command :
    signal_server_end 2 = 2 ∧
    (∀ s : Nat, s ≠ 2 → signal_server_end s = 0) ∧
    srv_run 2 [SrvEvent.signal, SrvEvent.complete] = 1 := by
  refine ⟨rfl, ?_, rfl⟩
  intro s hs
  simp [signal_server_end, hs]

/-- Witness for the amended claim C8: a signal in the active state 1
stops the server at once. -/
theorem claim8_signal_discarded_witness :
    (1 : Nat) ≠ 2 ∧ signal_server_end 1 = 0 :=
  ⟨by decide, claim8_signal_discarded_during_command.2.1 1 (by decide)⟩

/- ---- Claim C7: registry invariants over accept and evict sequences ---- -/

/-- The first element survives a set at a positive index. -/
theorem headD_set_pos {α : Type} [Inhabited α] (l : List α) (i : Nat) (x : α)
    (hi : 1 ≤ i) : ((l.set i x).headD default) = l.headD default := by
  match l, i with
  | [], _ => simp
  | a :: t, 0 => omega
  | a :: t, j + 1 => simp

/-- The first element survives dropLast on a list of length at least 2. -/
theorem headD_dropLast {α : Type} [Inhabited α] (l : List α) (h : 2 ≤ l.length) :
    (l.dropLast.headD default) = l.headD default := by
  match l with
  | [] => simp at h
  | [x] => simp at h
  | x :: y :: t => simp

/-- The first element survives appending on the right to a nonempty list. -/
theorem headD_append_left {α : Type} [Inhabited α] (l₁ l₂ : List α) (h : l₁ ≠ []) :
    ((l₁ ++ l₂).headD default) = l₁.headD default := by
  match l₁ with
  | [] => exact absurd rfl h
  | a :: t => simp

/-- Writing a copy of the last element over position i and then dropping
the last element preserves distinctness: the multiset of survivors is the
original minus the element at i. This is the list-level content of the
swap-remove step. -/
theorem nodup_swap_dropLast {α : Type} [Inhabited α] (A : List α) (i : Nat)
    (hi : i < A.length) (h : A.Nodup) : ((A.set i (A.getLastD default)).dropLast).Nodup := by
  have hne : A ≠ [] := by
    intro hA
    rw [hA] at hi
    simp at hi
  obtain ⟨B, a, hBa⟩ : ∃ B a, A = B ++ [a] := by
    refine ⟨A.dropLast, A.getLast hne, ?_⟩
    rw [List.dropLast_concat_getLast hne]
  subst hBa
  rw [List.getLastD_concat]
  have hlen : i < B.length + 1 := by simpa using hi
  rcases Nat.lt_or_ge i B.length with hiB | hiB
  · rw [List.set_append_left _ _ hiB, List.dropLast_concat]
    have hB : B.Nodup := h.of_append_left
    have haB : a ∉ B := by
      intro hmem
      have hd := List.disjoint_of_nodup_append h
      exact hd hmem (by simp)
    rw [List.set_eq_take_cons_drop a hiB]
    rw [List.nodup_middle, List.nodup_cons]
    constructor
    · intro hmem
      rcases List.mem_append.mp hmem with hm | hm
      · exact haB (List.take_subset i B hm)
      · exact haB (List.drop_subset (i + 1) B hm)
    · have hsub : (B.take i ++ B.drop (i + 1)).Sublist (B.take i ++ B.drop i) := by
        apply List.Sublist.append_left
        exact List.drop_sublist_drop_left B (by omega)
      have : (B.take i ++ B.drop i).Nodup := by
        rw [List.take_append_drop]; exact hB
      exact hsub.nodup this
  · have hiB2 : i = B.length := by omega
    subst hiB2
    rw [List.set_append_right _ _ (Nat.le_refl _)]
    simp only [Nat.sub_self, List.set_cons_zero]
    rw [List.dropLast_concat]
    exact h.of_append_left

/-- Evaluation of add_pollfds_list when the realloc (if any) succeeds:
the new client is appended with full credit bits and the capacity doubles
exactly when the list was full. -/
theorem add_pollfds_list_ok (entries : List Pollfd) (alloc : Nat) (fd : Int) :
    add_pollfds_list entries alloc fd true =
      (some (entries ++ [⟨fd, POLLIN ||| (3 <<< 3), 0⟩]),
        if entries.length ≥ alloc then alloc * 2 else alloc) := by
  unfold add_pollfds_list
  split <;> simp

/-- Evaluation of remove_pollfds_list when the realloc (if any) succeeds:
the slot at i receives the fd of the last live entry, the last slot is
truncated, and the capacity halves exactly when the new occupancy is
below half of it. -/
theorem remove_pollfds_list_ok (entries : List Pollfd) (alloc i : Nat) (c : Pollfd)
    (hc : entries.get? i = some c) :
    remove_pollfds_list entries alloc i true =
      (some ((entries.set i { c with fd := (entries.getLastD default).fd }).dropLast),
        if entries.length - 1 < alloc / 2 then alloc / 2 else alloc) := by
  simp only [remove_pollfds_list, hc]
  split <;> simp

/-- Evaluation of an accept step for a descriptor that is not currently
open: the client is appended, capacity doubling exactly on a full list. -/
theorem applyOp_accept_eval (r : Registry) (fd : Int)
    (hmem : fd ∉ r.entries.map Pollfd.fd) :
    applyOp r (RegOp.accept fd) =
      ⟨r.entries ++ [⟨fd, POLLIN ||| (3 <<< 3), 0⟩],
        if r.entries.length ≥ r.alloc then r.alloc * 2 else r.alloc⟩ := by
  simp only [applyOp]
  rw [if_neg hmem, add_pollfds_list_ok]

/-- Evaluation of an evict step at a valid client index. -/
theorem applyOp_evict_eval (r : Registry) (i : Nat) (c : Pollfd)
    (hg : 1 ≤ i ∧ i < r.entries.length) (hc : r.entries.get? i = some c) :
    applyOp r (RegOp.evict i) =
      ⟨(r.entries.set i { c with fd := (r.entries.getLastD default).fd }).dropLast,
        if r.entries.length - 1 < r.alloc / 2 then r.alloc / 2 else r.alloc⟩ := by
  simp only [applyOp]
  rw [if_pos hg, remove_pollfds_list_ok _ _ _ _ hc]

/-- One accept or evict step preserves the registry invariants: nonempty
entry list, the listening socket at position 0, and no duplicate
descriptors. -/
theorem applyOp_preserves (s : Int) (r : Registry) (op : RegOp)
    (h1 : r.entries ≠ []) (h2 : (r.entries.headD default).fd = s)
    (h3 : (r.entries.map Pollfd.fd).Nodup) :
    (applyOp r op).entries ≠ [] ∧
    ((applyOp r op).entries.headD default).fd = s ∧
    ((applyOp r op).entries.map Pollfd.fd).Nodup := by
  cases op with
  | accept fd =>
    by_cases hmem : fd ∈ r.entries.map Pollfd.fd
    · have : applyOp r (RegOp.accept fd) = r := by
        simp only [applyOp]
        rw [if_pos hmem]
      rw [this]
      exact ⟨h1, h2, h3⟩
    · rw [applyOp_accept_eval r fd hmem]
      refine ⟨by simp, ?_, ?_⟩
      · rw [headD_append_left _ _ h1]
        exact h2
      · rw [List.map_append, List.nodup_append]
        refine ⟨h3, by simp, ?_⟩
        intro x hx hx2
        simp only [List.map_cons, List.map_nil, List.mem_singleton] at hx2
        subst hx2
        exact hmem hx
  | evict i =>
    by_cases hg : 1 ≤ i ∧ i < r.entries.length
    · obtain ⟨c, hc⟩ : ∃ c, r.entries.get? i = some c := by
        rw [List.get?_eq_getElem?]
        exact ⟨_, List.getElem?_eq_getElem hg.2⟩
      rw [applyOp_evict_eval r i c hg hc]
      dsimp only
      have hlen2 : 2 ≤ r.entries.length := by omega
      have hlend : ((r.entries.set i
          { c with fd := (r.entries.getLastD default).fd }).dropLast).length =
          r.entries.length - 1 := by
        simp [List.length_dropLast, List.length_set]
      refine ⟨?_, ?_, ?_⟩
      · intro hnil
        rw [hnil] at hlend
        simp at hlend
        omega
      · rw [headD_dropLast _ (by simp only [List.length_set]; omega)]
        rw [headD_set_pos _ _ _ hg.1]
        exact h2
      · rw [List.map_dropLast, List.map_set]
        have hlast : Pollfd.fd { c with fd := (r.entries.getLastD default).fd } =
            (r.entries.map Pollfd.fd).getLastD default := by
          rw [← List.getLastD_map Pollfd.fd r.entries default]
          rfl
        rw [hlast]
        exact nodup_swap_dropLast (r.entries.map Pollfd.fd) i (by simpa using hg.2) h3
    · have : applyOp r (RegOp.evict i) = r := by
        simp only [applyOp]
        rw [if_neg hg]
      rw [this]
      exact ⟨h1, h2, h3⟩

/-- A whole sequence of accept and evict steps preserves the registry
invariants. -/
theorem applyOps_preserves (s : Int) (ops : List RegOp) :
    ∀ r : Registry, r.entries ≠ [] → (r.entries.headD default).fd = s →
      (r.entries.map Pollfd.fd).Nodup →
      ((applyOps r ops).entries ≠ [] ∧
        ((applyOps r ops).entries.headD default).fd = s ∧
        ((applyOps r ops).entries.map Pollfd.fd).Nodup) := by
  induction ops with
  | nil =>
    intro r h1 h2 h3
    exact ⟨h1, h2, h3⟩
  | cons op rest ih =>
    intro r h1 h2 h3
    have h := applyOp_preserves s r op h1 h2 h3
    exact ih (applyOp r op) h.1 h.2.1 h.2.2

/-- Claim C7 confirmed: for every sequence of accept and evict operations
from the initial registry (with accept constrained by the operating
system to return a descriptor that is not currently open, and evictions
ranging over the client indices the source loops can reach, all of which
start past the listening socket), the registry never holds two live
entries with the same descriptor, the listening socket is still at the
fixed position 0, and the listening descriptor does not occur in the
client view (the suffix from index 1) over which broadcast, heartbeat and
command iterations run. -/
theorem claim7_registry_invariants (server_sockfd : Int) (ops : List RegOp) :
    (applyOps (initRegistry server_sockfd) ops).entries ≠ [] ∧
    ((applyOps (initRegistry server_sockfd) ops).entries.headD default).fd = server_sockfd ∧
    ((applyOps (initRegistry server_sockfd) ops).entries.map Pollfd.fd).Nodup ∧
    server_sockfd ∉
      ((applyOps (initRegistry server_sockfd) ops).entries.drop 1).map Pollfd.fd := by
  have h := applyOps_preserves server_sockfd ops (initRegistry server_sockfd)
    (by simp [initRegistry]) (by simp [initRegistry]) (by simp [initRegistry])
  refine ⟨h.1, h.2.1, h.2.2, ?_⟩
  obtain ⟨h1, h2, h3⟩ := h
  cases hE : (applyOps (initRegistry server_sockfd) ops).entries with
  | nil => exact absurd hE h1
  | cons e t =>
    rw [hE] at h2 h3
    simp only [List.headD_cons] at h2
    simp only [List.map_cons, List.nodup_cons] at h3
    simp only [List.drop_succ_cons, List.drop_zero]
    rw [← h2]
    exact h3.1

/- ---- Claim C9: mailbox mutual exclusion ---- -/

/-- Claim C9 confirmed as an inductive invariant of the interleaved
protocol: in every reachable joint state, (a) whenever the run-state flag
reads 2 the producer is parked in its sleep loop, so the loop never reads
the command while the producer is still writing it; (b) whenever the
event loop is inside handle_interaction_result the flag is 2 and the
producer is parked, and in particular (c) the producer is never writing
the request while the loop is consuming it; the producer re-enters
writing only from idle, which it reaches from the sleep loop only after
the loop has stored 1 (active) back — at most one command is outstanding
at any time. -/
theorem claim9_mailbox_mutual_exclusion (s : Mailbox) (h : MbReach s) :
    (s.st = 2 → s.ppc = PPC.waiting) ∧
    (s.lpc = LPC.consuming → s.st = 2 ∧ s.ppc = PPC.waiting) ∧
    ¬(s.ppc = PPC.writing ∧ s.lpc = LPC.consuming) := by
  induction h with
  | init => decide
  | step hr hstep ih => cases hstep <;> simp_all

/-- Witness for claim C9 at the reachable state with a posted command
being consumed: producer parked, loop consuming. -/
theorem claim9_mailbox_witness :
    ((Mailbox.mk 2 PPC.waiting LPC.consuming).st = 2 →
      (Mailbox.mk 2 PPC.waiting LPC.consuming).ppc = PPC.waiting) ∧
    ((Mailbox.mk 2 PPC.waiting LPC.consuming).lpc = LPC.consuming →
      (Mailbox.mk 2 PPC.waiting LPC.consuming).st = 2 ∧
      (Mailbox.mk 2 PPC.waiting LPC.consuming).ppc = PPC.waiting) ∧
    ¬((Mailbox.mk 2 PPC.waiting LPC.consuming).ppc = PPC.writing ∧
      (Mailbox.mk 2 PPC.waiting LPC.consuming).lpc = LPC.consuming) :=
  claim9_mailbox_mutual_exclusion ⟨2, PPC.waiting, LPC.consuming⟩
    (MbReach.step
      (MbReach.step
        (MbReach.step
          (MbReach.step MbReach.init (MbStep.prodBegin 1 LPC.top))
          (MbStep.prodWriteEnd 1 LPC.top))
        (MbStep.prodPost 1 LPC.top))
      (MbStep.loopSee PPC.waiting))

/- ---- Claim C3: round-trip framing ---- -/

/-- Splitting a take at an intermediate point. -/
theorem take_add_eq {α : Type} (l : List α) (a b : Nat) :
    l.take (a + b) = l.take a ++ (l.drop a).take b := by
  induction l generalizing a with
  | nil => simp
  | cons x t ih =>
    cases a with
    | zero => simp
    | succ a2 =>
      have hab : a2 + 1 + b = (a2 + b) + 1 := by omega
      rw [hab]
      simp [ih]

/-- Lists agreeing on a prefix agree at indices inside it. -/
theorem getD_of_take_eq {α : Type} (a b : List α) (n i : Nat) (d : α)
    (h : a.take n = b.take n) (hi : i < n) : a.getD i d = b.getD i d := by
  rw [List.getD_eq_getElem?_getD, List.getD_eq_getElem?_getD,
    ← List.getElem?_take_of_lt (l := a) hi, ← List.getElem?_take_of_lt (l := b) hi, h]

/-- writeBytes keeps the buffer length when the write fits. -/
theorem writeBytes_length (buf chunk : List Nat) (pos : Nat)
    (h : pos + chunk.length ≤ buf.length) :
    (writeBytes buf pos chunk).length = buf.length := by
  simp only [writeBytes, List.length_append, List.length_take, List.length_drop]
  omega

/-- The prefix of a buffer after writeBytes is the untouched prefix
followed by the chunk. -/
theorem writeBytes_take (buf chunk : List Nat) (pos : Nat) (h : pos ≤ buf.length) :
    (writeBytes buf pos chunk).take (pos + chunk.length) = buf.take pos ++ chunk := by
  apply List.take_left'
  simp only [List.length_append, List.length_take]
  omega

/-- Running send_bytes over a buffer whose length is the requested size
and whose bytes before the last are neither NUL nor newline transmits the
rest of the buffer in full, whatever the chunking schedule does. -/
theorem send_bytes_run (m : List Nat)
    (hclean : ∀ j, j < m.length - 1 → m.getD j 0 ≠ 0 ∧ m.getD j 0 ≠ 10) :
    ∀ fuel total sent sched, m.length - total ≤ fuel → total < m.length →
      send_bytes m.length m sent total sched = some (sent ++ m.drop total, m.length) := by
  intro fuel
  induction fuel with
  | zero =>
    intro total sent sched hf ht
    omega
  | succ f ih =>
    intro total sent sched hf ht
    rw [send_bytes]
    set k := min (sched.headD 0 + 1) (m.length - total) with hkdef
    have hmin2 : k ≤ m.length - total := by
      rw [hkdef]
      exact Nat.min_le_right _ _
    have hk1 : ¬(k = 0) := by
      rw [hkdef]
      omega
    rw [if_neg hk1]
    have hkpos : 1 ≤ k := by omega
    by_cases h2 : total + k ≥ m.length
    · rw [if_pos h2]
      have htk : (m.drop total).take k = m.drop total := by
        apply List.take_of_length_le
        simp only [List.length_drop]
        omega
      have htot : total + k = m.length := by omega
      rw [htk, htot]
    · rw [if_neg h2]
      have hj := hclean (total + k - 1) (by omega)
      rw [if_neg (by rw [not_or]; exact hj)]
      rw [ih (total + k) (sent ++ (m.drop total).take k) sched.tail (by omega) (by omega)]
      have hd : m.drop (total + k) = (m.drop total).drop k := (List.drop_drop k total m).symm
      rw [hd, List.append_assoc, List.take_append_drop]

/-- Replacing the final byte of a nonempty list by NUL. -/
theorem set_last_eq_take_append (m : List Nat) (hne : 1 ≤ m.length) :
    m.set (m.length - 1) 0 = m.take (m.length - 1) ++ [0] := by
  rw [List.set_eq_take_cons_drop 0 (show m.length - 1 < m.length by omega)]
  have h1 : m.length - 1 + 1 = m.length := by omega
  rw [h1, List.drop_length]

/-- Running recieve_bytes over the byte stream of one framed message:
the message bytes before the last are neither NUL nor pulse nor newline,
and either the last byte is the newline terminator (with the message no
longer than the buffer limit) or the message exactly fills the limit. In
every chunking schedule the loop consumes the whole message, returns its
length, and leaves the buffer holding the message with its final byte
replaced by NUL. -/
theorem recieve_bytes_run (m : List Nat) (maxB : Nat) (hlen : m.length ≤ maxB)
    (hclean : ∀ j, j < m.length - 1 → m.getD j 0 ≠ 0 ∧ m.getD j 0 ≠ 3 ∧ m.getD j 0 ≠ 10)
    (hlast : m.getD (m.length - 1) 0 = 10 ∨ m.length = maxB) :
    ∀ fuel total buf sched, m.length - total ≤ fuel → total < m.length →
      maxB ≤ buf.length → buf.take total = m.take total →
      (recieve_bytes maxB buf total (m.drop total) sched).2 = m.length ∧
      (recieve_bytes maxB buf total (m.drop total) sched).1.take m.length =
        m.take (m.length - 1) ++ [0] ∧
      (recieve_bytes maxB buf total (m.drop total) sched).1.length = buf.length := by
  intro fuel
  induction fuel with
  | zero =>
    intro total buf sched hf ht hbuf htake
    omega
  | succ f ih =>
    intro total buf sched hf ht hbuf htake
    rw [recieve_bytes]
    set k := min (min (sched.headD 0 + 1) (maxB - total)) (m.drop total).length with hkdef
    have hdlen : (m.drop total).length = m.length - total := by simp
    have hka : k ≤ m.length - total := by
      rw [hkdef, hdlen]
      exact Nat.min_le_right _ _
    have hkb : k ≤ maxB - total := by
      rw [hkdef]
      exact le_trans (Nat.min_le_left _ _) (Nat.min_le_right _ _)
    have hk1 : ¬(k = 0) := by
      rw [hkdef, hdlen]
      omega
    rw [dif_neg hk1]
    have hkpos : 1 ≤ k := by omega
    clear_value k
    have hchlen : ((m.drop total).take k).length = k := by
      simp only [List.length_take, hdlen]
      omega
    have hb2len : (writeBytes buf total ((m.drop total).take k)).length = buf.length := by
      apply writeBytes_length
      rw [hchlen]
      omega
    have hb2take :
        (writeBytes buf total ((m.drop total).take k)).take (total + k) =
          m.take (total + k) := by
      have h1 := writeBytes_take buf ((m.drop total).take k) total (by omega)
      rw [hchlen] at h1
      rw [h1, htake, ← take_add_eq]
    by_cases hge : total + k ≥ maxB
    · rw [if_pos hge]
      have htot : total + k = m.length := by omega
      refine ⟨htot, ?_, ?_⟩
      · rw [htot, List.set_take]
        have hfull : (writeBytes buf total ((m.drop total).take k)).take m.length = m := by
          rw [← htot, hb2take, htot, List.take_length]
        rw [hfull]
        exact set_last_eq_take_append m (by omega)
      · rw [List.length_set]
        exact hb2len
    · rw [if_neg hge]
      have hidx :
          (writeBytes buf total ((m.drop total).take k)).getD (total + k - 1) 0 =
            m.getD (total + k - 1) 0 :=
        getD_of_take_eq _ _ (total + k) _ 0 hb2take (by omega)
      by_cases hend : total + k = m.length
      · have hl10 : m.getD (m.length - 1) 0 = 10 := by
          rcases hlast with h10 | hmax
          · exact h10
          · omega
        have hbyte :
            (writeBytes buf total ((m.drop total).take k)).getD (total + k - 1) 0 = 10 := by
          rw [hidx, hend, hl10]
        rw [if_neg (by rw [not_or, hbyte]; exact ⟨by decide, by decide⟩)]
        rw [if_pos hbyte]
        refine ⟨hend, ?_, ?_⟩
        · rw [hend, List.set_take]
          have hfull : (writeBytes buf total ((m.drop total).take k)).take m.length = m := by
            rw [← hend, hb2take, hend, List.take_length]
          rw [hfull]
          exact set_last_eq_take_append m (by omega)
        · rw [List.length_set]
          exact hb2len
      · have hend2 : total + k < m.length := by omega
        have hj := hclean (total + k - 1) (by omega)
        rw [if_neg (by rw [not_or, hidx]; exact ⟨hj.1, hj.2.1⟩)]
        rw [if_neg (by rw [hidx]; exact hj.2.2)]
        have hds : (m.drop total).drop k = m.drop (total + k) := List.drop_drop k total m
        rw [hds]
        have hrec := ih (total + k) (writeBytes buf total ((m.drop total).take k)) sched.tail
          (by omega) (by omega) (by rw [hb2len]; exact hbuf) hb2take
        exact ⟨hrec.1, hrec.2.1, by rw [hrec.2.2, hb2len]⟩

/-- A getD read inside the bounds of a list yields a member. -/
theorem getD_mem_of_lt {α : Type} (l : List α) (j : Nat) (d : α) (h : j < l.length) :
    l.getD j d ∈ l := by
  rw [List.getD_eq_getElem l d h]
  exact List.getElem_mem h

/-- A getD read inside the left part of an append reads the left part. -/
theorem getD_append_lt {α : Type} (l1 l2 : List α) (j : Nat) (d : α)
    (h : j < l1.length) : (l1 ++ l2).getD j d = l1.getD j d := by
  rw [List.getD_eq_getElem?_getD, List.getD_eq_getElem?_getD, List.getElem?_append_left h]

/-- Reading just past a list inside an append with a singleton yields the
appended element. -/
theorem getD_append_self {α : Type} (l1 : List α) (x d : α) :
    (l1 ++ [x]).getD l1.length d = x := by
  rw [List.getD_eq_getElem?_getD, List.getElem?_append_right (Nat.le_refl _)]
  simp

/-- Claim C3 confirmed: for every payload whose bytes avoid the three
framing control values (NUL, the pulse byte 3, and newline) and every
chunking the send and recv calls may exhibit, (a) when the payload plus
its newline fits the buffer limit, send_bytes transmits exactly the
newline-terminated message, and recieve_bytes consumes it, returns its
length and stores the payload with the trailing newline replaced by the
NUL end-of-message marker; and (b) a payload exactly at the buffer limit
is transmitted in full and delivered with a NUL forced over its final
byte without any delimiter being required. -/
theorem claim3_roundtrip_framing (p buf : List Nat) (maxB : Nat) (ss sr : List Nat)
    (hp : ∀ b ∈ p, b ≠ 0 ∧ b ≠ 3 ∧ b ≠ 10) (hbuf : maxB ≤ buf.length) :
    (p.length + 1 ≤ maxB →
      send_bytes (p.length + 1) (p ++ [10]) [] 0 ss = some (p ++ [10], p.length + 1) ∧
      (recieve_bytes maxB buf 0 (p ++ [10]) sr).2 = p.length + 1 ∧
      (recieve_bytes maxB buf 0 (p ++ [10]) sr).1.take (p.length + 1) = p ++ [0]) ∧
    (1 ≤ maxB → p.length = maxB →
      send_bytes maxB p [] 0 ss = some (p, maxB) ∧
      (recieve_bytes maxB buf 0 p sr).2 = maxB ∧
      (recieve_bytes maxB buf 0 p sr).1.take maxB = p.take (maxB - 1) ++ [0]) := by
  constructor
  · intro h1
    have hplen : (p ++ [10]).length = p.length + 1 := by simp
    have hclean : ∀ j, j < (p ++ [10]).length - 1 →
        (p ++ [10]).getD j 0 ≠ 0 ∧ (p ++ [10]).getD j 0 ≠ 3 ∧ (p ++ [10]).getD j 0 ≠ 10 := by
      intro j hj
      rw [hplen] at hj
      simp only [Nat.add_sub_cancel] at hj
      rw [getD_append_lt _ _ _ _ hj]
      exact hp _ (getD_mem_of_lt _ _ _ hj)
    have hlast : (p ++ [10]).getD ((p ++ [10]).length - 1) 0 = 10 := by
      rw [hplen]
      simp only [Nat.add_sub_cancel]
      exact getD_append_self p 10 0
    refine ⟨?_, ?_⟩
    · have hs := send_bytes_run (p ++ [10])
        (fun j hj => ⟨(hclean j hj).1, (hclean j hj).2.2⟩)
        ((p ++ [10]).length) 0 [] ss (by omega) (by simp)
      rw [hplen] at hs
      simpa using hs
    · have hr := recieve_bytes_run (p ++ [10]) maxB (by rw [hplen]; omega) hclean
        (Or.inl hlast) ((p ++ [10]).length) 0 buf sr (by omega) (by simp) hbuf (by simp)
      rw [List.drop_zero, hplen] at hr
      refine ⟨hr.1, ?_⟩
      have h2 := hr.2.1
      have h3 : (p ++ [10]).take (p.length + 1 - 1) = p := by
        simp only [Nat.add_sub_cancel]
        exact List.take_left' rfl
      rw [h3] at h2
      exact h2
  · intro hB1 hB2
    subst hB2
    have hclean2 : ∀ j, j < p.length - 1 →
        p.getD j 0 ≠ 0 ∧ p.getD j 0 ≠ 3 ∧ p.getD j 0 ≠ 10 := by
      intro j hj
      exact hp _ (getD_mem_of_lt _ _ _ (by omega))
    refine ⟨?_, ?_⟩
    · have hs := send_bytes_run p
        (fun j hj => ⟨(hclean2 j hj).1, (hclean2 j hj).2.2⟩)
        p.length 0 [] ss (by omega) (by omega)
      simpa using hs
    · have hr := recieve_bytes_run p p.length (Nat.le_refl _) hclean2 (Or.inr rfl)
        p.length 0 buf sr (by omega) (by omega) hbuf (by simp)
      rw [List.drop_zero] at hr
      exact ⟨hr.1, hr.2.1⟩

/-- Witness for claim C3 at a concrete input: payload 104, 105 with
buffer limit 4, a stale buffer of four bytes 7, and schedules that make
each call transfer up to ten bytes. -/
theorem claim3_roundtrip_witness :
    (∀ b ∈ ([104, 105] : List Nat), b ≠ 0 ∧ b ≠ 3 ∧ b ≠ 10) ∧
    4 ≤ ([7, 7, 7, 7] : List Nat).length ∧
    ((([104, 105] : List Nat).length + 1 ≤ 4 →
      send_bytes (([104, 105] : List Nat).length + 1) ([104, 105] ++ [10]) [] 0 [9] =
        some ([104, 105] ++ [10], ([104, 105] : List Nat).length + 1) ∧
      (recieve_bytes 4 [7, 7, 7, 7] 0 ([104, 105] ++ [10]) [9]).2 =
        ([104, 105] : List Nat).length + 1 ∧
      (recieve_bytes 4 [7, 7, 7, 7] 0 ([104, 105] ++ [10]) [9]).1.take
          (([104, 105] : List Nat).length + 1) = [104, 105] ++ [0]) ∧
    (1 ≤ 4 → ([104, 105] : List Nat).length = 4 →
      send_bytes 4 [104, 105] [] 0 [9] = some ([104, 105], 4) ∧
      (recieve_bytes 4 [7, 7, 7, 7] 0 [104, 105] [9]).2 = 4 ∧
      (recieve_bytes 4 [7, 7, 7, 7] 0 [104, 105] [9]).1.take 4 =
        ([104, 105] : List Nat).take (4 - 1) ++ [0])) :=
  ⟨by decide, by decide,
    claim3_roundtrip_framing [104, 105] [7, 7, 7, 7] 4 [9] [9] (by decide) (by decide)⟩
